import Mathlib

/-!
Verification of the beansdb request core (src/beansdb.c) and the mmap
accounting helper (src/mfile.c) against its natural-language specification.

The C sources are shallowly embedded below: buffers become lists, pointers
into buffers become natural-number offsets, C `int` counters become `Nat`
(all the counters involved are non-negative and far from overflow on the
code paths modelled), and fallible allocations are driven by an explicit
oracle (a list of `Bool` outcomes, one per allocation attempt; an exhausted
oracle means the allocation succeeds).  Each definition mirrors one C
function and cites it.
-/

namespace Beansdb

/-! ### Constants

`IOV_MAX` comes from `<limits.h>` (the source falls back to 1024 when the
platform does not expose it, beansdb.c lines 45-54).  The remaining
constants come from beansdb.h, which is not part of the two source files;
their values are the ones the spec records (spec sections 3, 4.2):
`MAX_PAYLOAD_SIZE` = 1400, `DATA_BUFFER_SIZE` = 2048, `MAX_KEY_LEN` = 255,
and the initial list sizes rbuf 2048 / ilist 200 / iov 400 / msg 10. -/

def IOV_MAX : Nat := 1024

def MAX_PAYLOAD_SIZE : Nat := 1400

def DATA_BUFFER_SIZE : Nat := 2048

def MAX_KEY_LEN : Nat := 255

def ITEM_LIST_INITIAL : Nat := 200

/-! ### C1: iov / msghdr bookkeeping (`add_msghdr`, `add_iov`)

beansdb.c lines 127-154 (`add_msghdr`) and 492-542 (`add_iov`).

A `struct msghdr` is modelled by the two counters the claims are about:
`msg_iovlen` (number of iovec fragments of this message) and `msg_bytes`
(total bytes of those fragments; in C this is only materialised for the
message currently being built, as `c->msgbytes`, which `add_msghdr` resets
to 0).  The connection's message list is kept most-recent-first
(`msgrev.head` is `c->msglist[c->msgused - 1]`, `msgrev.getLast` is
`c->msglist[0]`), so `c->msgused = msgrev.length`.

Reallocation of the iov and msg arrays (`ensure_iov_space`, the realloc in
`add_msghdr`) always succeeds in the model - lists grow unboundedly - so
`add_iov` is total; this models the successful builds the claim quantifies
over. -/

structure MsgHdr where
  msg_iovlen : Nat
  msg_bytes : Nat
deriving DecidableEq

/-- Connection state relevant to response assembly: `c->msglist`/`c->msgused`
(as `msgrev`, most recent message first), `c->iovused` and `c->msgbytes`. -/
structure ConnIov where
  msgrev : List MsgHdr
  iovused : Nat
  msgbytes : Nat
deriving DecidableEq

/-- beansdb.c 127-154: append a fresh zeroed `msghdr` (its `msg_iov` points
at `&c->iov[c->iovused]`, so it starts with no fragments) and reset the
running byte counter `c->msgbytes` to 0. -/
def add_msghdr (c : ConnIov) : ConnIov :=
  { msgrev := ⟨0, 0⟩ :: c.msgrev, iovused := c.iovused, msgbytes := 0 }

/-- beansdb.c 529-535: store the fragment in the current (most recent)
message: `m->msg_iov[m->msg_iovlen] = ...; c->msgbytes += len;
c->iovused++; m->msg_iovlen++`. -/
def appendFrag (c : ConnIov) (len : Nat) : ConnIov :=
  match c.msgrev with
  | [] => c
  | m :: rest =>
    { msgrev := ⟨m.msg_iovlen + 1, m.msg_bytes + len⟩ :: rest,
      iovused := c.iovused + 1,
      msgbytes := c.msgbytes + len }

/-- beansdb.c 507-515: `limit_to_mtu = (1 == c->msgused)`; start a new
message header when the current one is full (`m->msg_iovlen == IOV_MAX`) or
when the very first message has accumulated `MAX_PAYLOAD_SIZE` bytes
(`limit_to_mtu && c->msgbytes >= MAX_PAYLOAD_SIZE`). -/
def add_iov_start (c : ConnIov) : ConnIov :=
  if (c.msgrev.headD ⟨0, 0⟩).msg_iovlen = IOV_MAX ∨
      (c.msgrev.length = 1 ∧ MAX_PAYLOAD_SIZE ≤ c.msgbytes) then add_msghdr c else c

/-- beansdb.c 520-527: if limiting to MTU and the fragment would overflow
the first message, `leftover = len + c->msgbytes - MAX_PAYLOAD_SIZE`
(with `c->msgbytes` read after the possible `add_msghdr`), else 0. -/
def add_iov_leftover (c : ConnIov) (len : Nat) : Nat :=
  if c.msgrev.length = 1 ∧ MAX_PAYLOAD_SIZE < len + (add_iov_start c).msgbytes then
    len + (add_iov_start c).msgbytes - MAX_PAYLOAD_SIZE
  else 0

/-- beansdb.c 492-542, `add_iov(c, buf, len)`: the do/while loop.  Each
iteration starts a new message header if needed (`add_iov_start`), splits
the fragment if it would push the first message past `MAX_PAYLOAD_SIZE`
(`add_iov_leftover`; `len -= leftover`), appends the (possibly trimmed)
fragment, and loops on the leftover (`while (leftover > 0)`). -/
def add_iov (c : ConnIov) (len : Nat) : ConnIov :=
  if 0 < add_iov_leftover c len then
    add_iov (appendFrag (add_iov_start c) (len - add_iov_leftover c len))
      (add_iov_leftover c len)
  else
    appendFrag (add_iov_start c) (len - add_iov_leftover c len)
termination_by len
decreasing_by
  rename_i hlt
  unfold add_iov_leftover add_iov_start at hlt ⊢
  by_cases hQ : (c.msgrev.headD ⟨0, 0⟩).msg_iovlen = IOV_MAX ∨
      (c.msgrev.length = 1 ∧ MAX_PAYLOAD_SIZE ≤ c.msgbytes)
  · rw [if_pos hQ] at hlt ⊢
    by_cases hP : c.msgrev.length = 1 ∧ MAX_PAYLOAD_SIZE < len + (add_msghdr c).msgbytes
    · rw [if_pos hP] at hlt ⊢
      have h0 : (add_msghdr c).msgbytes = 0 := rfl
      have hM : MAX_PAYLOAD_SIZE = 1400 := rfl
      omega
    · rw [if_neg hP] at hlt
      omega
  · rw [if_neg hQ] at hlt ⊢
    by_cases hP : c.msgrev.length = 1 ∧ MAX_PAYLOAD_SIZE < len + c.msgbytes
    · rw [if_pos hP] at hlt ⊢
      push_neg at hQ
      have hmb := hQ.2 hP.1
      omega
    · rw [if_neg hP] at hlt
      omega

/-- beansdb.c 1166-1169 (`process_command`): each response starts from
`c->msgcurr = 0; c->msgused = 0; c->iovused = 0; add_msghdr(c)`. -/
def response_start : ConnIov :=
  add_msghdr { msgrev := [], iovused := 0, msgbytes := 0 }

/-- The bookkeeping invariant of a response under assembly (spec sections 3
and 8): at least one message header exists, `c->iovused` equals the sum of
the messages' `msg_iovlen`, `c->msgbytes` tracks the current message's
bytes, no message holds more than `IOV_MAX` fragments, and the *first*
message (`msgrev.getLast`) never exceeds `MAX_PAYLOAD_SIZE` bytes. -/
def msgInv (c : ConnIov) : Prop :=
  c.msgrev ≠ [] ∧
  c.iovused = (c.msgrev.map MsgHdr.msg_iovlen).sum ∧
  c.msgbytes = (c.msgrev.headD ⟨0, 0⟩).msg_bytes ∧
  (∀ m ∈ c.msgrev, m.msg_iovlen ≤ IOV_MAX) ∧
  (c.msgrev.getLastD ⟨0, 0⟩).msg_bytes ≤ MAX_PAYLOAD_SIZE

instance (c : ConnIov) : Decidable (msgInv c) := by
  unfold msgInv; infer_instance

/-! ### C2 / C7: read buffer cursor and line framing
(`try_read_command`, `try_read_network`)

beansdb.c lines 1286-1314 and 1323-1380.  `c->rbuf` is a byte buffer of
capacity `c->rsize`; the cursor `c->rcurr` becomes a natural-number offset
into it (so the claim's `rcurr ≥ rbuf` is inherent to the representation),
and `c->rbytes` counts the unread bytes at the cursor. -/

structure RConn where
  rbuf : List Nat
  rcurr : Nat
  rbytes : Nat
  rsize : Nat
deriving DecidableEq

/-- The cursor invariant (spec sections 3 and 8, item 1), plus the
representation fact that `rbuf` holds `rsize` bytes:
`rcurr + rbytes ≤ rbuf + rsize` becomes `rcurr + rbytes ≤ rsize`. -/
def rInv (c : RConn) : Prop :=
  c.rbuf.length = c.rsize ∧ c.rcurr + c.rbytes ≤ c.rsize

instance (c : RConn) : Decidable (rInv c) := by
  unfold rInv; infer_instance

/-- The unread bytes, `rcurr[0 .. rbytes)`. -/
def rwindow (c : RConn) : List Nat := (c.rbuf.drop c.rcurr).take c.rbytes

def newline : Nat := 10

def carriage : Nat := 13

/-- `memchr(s, b, n)`: offset of the first occurrence of byte `b`. -/
def memchr (b : Nat) : List Nat → Option Nat
  | [] => none
  | x :: xs => if x = b then some 0 else (memchr b xs).map (· + 1)

/-- beansdb.c 1286-1314, `try_read_command`: when the window holds no `\n`
(this also covers `if (c->rbytes == 0) return 0`), return 0 (`none`) so the
reader fetches more bytes.  Otherwise `el` is the first `\n`,
`cont = el + 1`, the `\r` before `el` is dropped only when
`(el - c->rcurr) > 1`, the line is handed to `process_command` (which does
not move the cursor), and the cursor advances past the consumed line:
`c->rbytes -= (cont - c->rcurr); c->rcurr = cont`. -/
def try_read_command (c : RConn) : Option (List Nat × RConn) :=
  match memchr newline (rwindow c) with
  | none => none
  | some k =>
    let command := if 1 < k ∧ (rwindow c).getD (k - 1) 0 = carriage then
        ((rwindow c).take k).dropLast
      else (rwindow c).take k
    some (command,
      { c with rcurr := c.rcurr + k + 1, rbytes := c.rbytes - (k + 1) })

/-- The framing rule as the spec (section 4.4) words it: "a preceding `\r`
is stripped" - with no further condition, i.e. also when the line body is
the single byte `\r`.  Compared against `try_read_command` below. -/
def try_read_command_spec (c : RConn) : Option (List Nat × RConn) :=
  match memchr newline (rwindow c) with
  | none => none
  | some k =>
    let command := if 0 < k ∧ (rwindow c).getD (k - 1) 0 = carriage then
        ((rwindow c).take k).dropLast
      else (rwindow c).take k
    some (command,
      { c with rcurr := c.rcurr + k + 1, rbytes := c.rbytes - (k + 1) })

/-- One result of the `read(2)` call inside the `try_read_network` loop:
`bytes n` models a socket with `n` bytes ready, so the call returns
`min n avail` (0 = end of stream); `again` is `EAGAIN`/`EWOULDBLOCK`;
`err` is any other error. -/
inductive ReadEv where
  | bytes : Nat → ReadEv
  | again : ReadEv
  | err : ReadEv
deriving DecidableEq

/-- Outcome of one fallible allocation: the head of the oracle list; an
exhausted oracle means the allocation succeeds. -/
def takeOracle : List Bool → Bool × List Bool
  | [] => (true, [])
  | b :: r => (b, r)

/-- beansdb.c 1338-1348: `try_realloc(c->rbuf, c->rsize * 2)`; the bytes
beyond the original length are uninitialised (zeros here).  The source also
re-establishes `c->rcurr = c->rbuf`, a no-op in the offset view because the
loop only runs after compaction has put `rcurr` at offset 0. -/
def rgrow (c : RConn) : RConn :=
  { c with rbuf := c.rbuf ++ List.replicate c.rsize 0, rsize := c.rsize * 2 }

/-- Result of `try_read_network`: final connection state, return value, and
whether the connection was put on the closing path (`conn_closing`, either
directly or via `write_and_go`). -/
structure NetResult where
  conn : RConn
  ret : Nat
  closing : Bool
deriving DecidableEq

/-- beansdb.c 1337-1349: at the top of each loop iteration, double the
buffer if it is full.  On allocation failure: `c->rbytes = 0` ("ignore what
we read"), reply `SERVER_ERROR out of memory reading request`,
`write_and_go = conn_closing`, return 1 (`Sum.inl`).  Otherwise continue
the iteration with the (possibly grown) buffer. -/
def grow_step (c : RConn) (ga : List Bool) : NetResult ⊕ (RConn × List Bool) :=
  if c.rsize ≤ c.rbytes then
    if (takeOracle ga).1 then Sum.inr (rgrow c, (takeOracle ga).2)
    else Sum.inl { conn := { c with rbytes := 0 }, ret := 1, closing := true }
  else Sum.inr (c, ga)

/-- beansdb.c 1351-1377: the `read(c->sfd, c->rbuf + c->rbytes, avail)`
call and its result handling.  `res > 0` accumulates into `rbytes`; only
`res == avail` continues the loop (`Sum.inr`); `res == 0` is end of stream
(`conn_closing`, return 1); `EAGAIN` breaks, returning `gotdata`; any
other error closes (return 1). -/
def recv_step (ev : ReadEv) (cg : RConn) (gotdata : Bool) (ga1 : List Bool) :
    NetResult ⊕ (RConn × List Bool) :=
  match ev with
  | ReadEv.bytes n =>
    let res := min n (cg.rsize - cg.rbytes)
    if res = 0 then
      Sum.inl { conn := cg, ret := 1, closing := true }
    else if res = cg.rsize - cg.rbytes then
      Sum.inr ({ cg with rbytes := cg.rbytes + res }, ga1)
    else
      Sum.inl { conn := { cg with rbytes := cg.rbytes + res }, ret := 1,
                closing := false }
  | ReadEv.again =>
    Sum.inl { conn := cg, ret := if gotdata then 1 else 0, closing := false }
  | ReadEv.err =>
    Sum.inl { conn := cg, ret := 1, closing := true }

/-- The beansdb.c 1336-1378 `while (1)` loop: each iteration is a
`grow_step` followed by a `recv_step` on the next read result; an exhausted
event list acts like `EAGAIN` (the growth check of that final iteration is
still performed first, as in the C iteration order). -/
def read_loop : List ReadEv → RConn → Bool → List Bool → NetResult
  | [], c, gotdata, ga =>
    match grow_step c ga with
    | Sum.inl r => r
    | Sum.inr (cg, _) =>
      { conn := cg, ret := if gotdata then 1 else 0, closing := false }
  | ev :: rest, c, gotdata, ga =>
    match grow_step c ga with
    | Sum.inl r => r
    | Sum.inr (cg, ga1) =>
      match recv_step ev cg gotdata ga1 with
      | Sum.inl r => r
      | Sum.inr (c2, ga2) => read_loop rest c2 true ga2

/-- beansdb.c 1323-1380, `try_read_network`: before reading, move the
remaining incomplete command fragment (if any) to the head of the buffer -
`memmove(c->rbuf, c->rcurr, c->rbytes)` (skipped when `rbytes == 0`, when
the formula below also leaves the contents unchanged) and `c->rcurr =
c->rbuf` - then run the read loop. -/
def try_read_network (c : RConn) (evs : List ReadEv) (ga : List Bool) : NetResult :=
  let c1 := if c.rcurr ≠ 0 then
      { c with rbuf := rwindow c ++ c.rbuf.drop c.rbytes, rcurr := 0 }
    else c
  read_loop evs c1 false ga

/-! ### C6 / C10: `out_string` and the noreply path

beansdb.c lines 544-573 (`out_string`); `set_noreply_maybe` (725-741) only
sets the flag when the last token equals "noreply" - it is the flag's
consumption in `out_string` that the claims are about.  Reply strings are
`List Char` so concrete replies can be written with string literals. -/

inductive ConnState where
  | listening
  | read
  | nread
  | swallow
  | write
  | mwrite
  | closing
deriving DecidableEq

/-- Connection state touched by `out_string`: the noreply flag, the machine
state, the write buffer (its `wbytes` valid bytes; capacity `wsize`, set
once to `DATA_BUFFER_SIZE` at `conn_new`, beansdb.c line 243, and never
resized), `iovused` (which `out_string` never touches) and `write_and_go`.
`conn_set_state` only assigns `state` here (`conn_shrink` runs on entry to
`conn_read` only and touches none of these fields). -/
structure WConn where
  noreply : Bool
  state : ConnState
  wbuf : List Char
  wbytes : Nat
  wsize : Nat
  iovused : Nat
  write_and_go : ConnState
deriving DecidableEq

def SERVER_ERROR_TOO_LONG : List Char := "SERVER_ERROR output line too long".data

def crlf : List Char := ['\r', '\n']

/-- beansdb.c 544-573, `out_string(c, str)`: with noreply set, clear the
flag and go straight back to `conn_read`, touching nothing else (an early
`return`).  Otherwise replace an overlong reply (`len + 2 > c->wsize`) by
the fixed line, copy it plus CRLF into `wbuf` (`wbytes = len + 2`,
`wcurr = wbuf`), and enter `conn_write` with `write_and_go = conn_read`. -/
def out_string (c : WConn) (str : List Char) : WConn :=
  if c.noreply then
    { c with noreply := false, state := ConnState.read }
  else
    let s1 := if c.wsize < str.length + 2 then SERVER_ERROR_TOO_LONG else str
    { c with wbuf := s1 ++ crlf, wbytes := s1.length + 2,
             state := ConnState.write, write_and_go := ConnState.read }

def endsCrlf (l : List Char) : Prop := l.reverse.take 2 = ['\n', '\r']

/-- The write-buffer safety invariant of C10: the valid bytes fit the
buffer and (once non-empty) end in CRLF. -/
def wInv (c : WConn) : Prop :=
  c.wbytes ≤ c.wsize ∧ c.wbuf.length = c.wbytes ∧
    (c.wbytes = 0 ∨ endsCrlf c.wbuf)

instance (c : WConn) : Decidable (wInv c) := by
  unfold wInv endsCrlf; infer_instance

/-! ### C4: `complete_nread` / `store_item`

beansdb.c lines 580-609 and 617-629.  The store is external (`hs_set`,
`hs_append`); the model records the calls made to it (`StoreCall`) and
takes the integer it would return as a function `retOf` of the call, and it
counts `item_free` invocations on the item.  The `stats.set_cmds++` these
lines also perform is the counter treated in C9's model. -/

inductive Comm where
  | set
  | append
deriving DecidableEq

structure Item where
  key : List Char
  flag : Int
  ver : Int
  nbytes : Nat
  data : List Nat
deriving DecidableEq

inductive StoreCall where
  | set : List Char → List Nat → Int → Int → StoreCall
  | append : List Char → List Nat → StoreCall
deriving DecidableEq

/-- beansdb.c 617-629, `store_item(it, comm)`: `hs_set(store, key,
ITEM_data(it), it->nbytes - 2, it->flag, it->ver)` for `NREAD_SET`;
`hs_append(store, key, ITEM_data(it), it->nbytes - 2)` for `NREAD_APPEND`.
The stored value drops the trailing CRLF. -/
def store_item (it : Item) (comm : Comm) : StoreCall :=
  match comm with
  | Comm.set => StoreCall.set it.key (it.data.take (it.nbytes - 2)) it.flag it.ver
  | Comm.append => StoreCall.append it.key (it.data.take (it.nbytes - 2))

structure NreadOut where
  reply : List Char
  calls : List StoreCall
  freed : Nat
deriving DecidableEq

/-- beansdb.c 580-609, `complete_nread`: require the two payload bytes at
`nbytes - 2` to be `\r\n` (`strncmp(ITEM_data(it) + it->nbytes - 2, "\r\n",
2)`), else reply `CLIENT_ERROR bad data chunk` without calling the store;
otherwise call `store_item` and map its return 1/2/3/other to
STORED/EXISTS/NOT_FOUND/NOT_STORED.  Either way `item_free(c->item)` then
runs exactly once. -/
def complete_nread (it : Item) (comm : Comm) (retOf : StoreCall → Int) : NreadOut :=
  if it.data.drop (it.nbytes - 2) ≠ [13, 10] then
    { reply := "CLIENT_ERROR bad data chunk".data, calls := [], freed := 1 }
  else
    { reply := (if retOf (store_item it comm) = 1 then "STORED"
        else if retOf (store_item it comm) = 2 then "EXISTS"
        else if retOf (store_item it comm) = 3 then "NOT_FOUND"
        else "NOT_STORED").data,
      calls := [store_item it comm],
      freed := 1 }

/-! ### C5: `process_update_command` allocation failure

beansdb.c lines 984-1038.  After `set_noreply_maybe` and the key and
numeric validations (`errno` interrogation after `strtoul`/`strtol` is
folded into the `vlen < 0` check the claim path needs), the source runs

    it       = item_alloc1(key, nkey, flags, vlen + 2);
    it->ver  = exptime;
    it->flag = flags;
    if (it == NULL) { reply SERVER_ERROR; write_and_go = conn_swallow;
                      sbytes = vlen + 2; return; }

storing through `it` *before* the NULL check (the slip spec section 9
records), so a failed allocation is a write through a null pointer and the
recovery branch is unreachable. -/

inductive UpdateOutcome where
  | clientError : List Char → UpdateOutcome
  | nullDeref : UpdateOutcome
  | serverOom : List Char → ConnState → Nat → UpdateOutcome
  | nreadState : Nat → Comm → Int → Int → UpdateOutcome
deriving DecidableEq

/-- beansdb.c 984-1038 as written: allocation failure hits the null
dereference on `it->ver = exptime` before `if (it == NULL)` is reached. -/
def process_update_command (keyLen : Nat) (flags exptime vlen : Int)
    (allocOk : Bool) (comm : Comm) : UpdateOutcome :=
  if MAX_KEY_LEN < keyLen then
    UpdateOutcome.clientError "CLIENT_ERROR bad command line format".data
  else if vlen < 0 then
    UpdateOutcome.clientError "CLIENT_ERROR bad command line format".data
  else if allocOk = false then
    UpdateOutcome.nullDeref
  else
    UpdateOutcome.nreadState (vlen.toNat + 2) comm exptime flags

/-- The behaviour claim C5 describes: the `if (it == NULL)` branch taken as
if the check preceded the dereference - reply `SERVER_ERROR out of memory
storing object` and swallow exactly `vlen + 2` bytes. -/
def process_update_claimed (keyLen : Nat) (flags exptime vlen : Int)
    (allocOk : Bool) (comm : Comm) : UpdateOutcome :=
  if MAX_KEY_LEN < keyLen then
    UpdateOutcome.clientError "CLIENT_ERROR bad command line format".data
  else if vlen < 0 then
    UpdateOutcome.clientError "CLIENT_ERROR bad command line format".data
  else if allocOk = false then
    UpdateOutcome.serverOom "SERVER_ERROR out of memory storing object".data
      ConnState.swallow (vlen.toNat + 2)
  else
    UpdateOutcome.nreadState (vlen.toNat + 2) comm exptime flags

/-! ### C9: `process_arithmetic_command` stats frame

beansdb.c lines 1056-1101; `struct stats` fields from beansdb.c 98-110
(there is no separate counter for incr commands in the struct, which the
`Stats` record mirrors; `started` is omitted as a time value no incr path
touches). -/

structure Stats where
  curr_conns : Nat
  total_conns : Nat
  conn_structs : Nat
  get_cmds : Nat
  set_cmds : Nat
  delete_cmds : Nat
  slow_cmds : Nat
  get_hits : Nat
  get_misses : Nat
  bytes_read : Nat
  bytes_written : Nat
deriving DecidableEq

/-- beansdb.c 1056-1101, `process_arithmetic_command` (only `incr` routes
here): after `set_noreply_maybe`, `stats.set_cmds++` happens under the
stats lock *before* the key-length and delta validations; an oversized key
or a delta `safe_strtoull` rejects (`deltaOk = false`) yields a client
error; otherwise `add_delta` (which always returns 0, beansdb.c 634-639)
formats the value `hs_incr` returned (`incrValue`). -/
def process_arithmetic_command (st : Stats) (keyLen : Nat) (deltaOk : Bool)
    (incrValue : Nat) : Stats × List Char :=
  let st1 := { st with set_cmds := st.set_cmds + 1 }
  if MAX_KEY_LEN < keyLen then
    (st1, "CLIENT_ERROR bad command line format".data)
  else if deltaOk = false then
    (st1, "CLIENT_ERROR invalid numeric delta argument".data)
  else
    (st1, (toString incrValue).data)

/-! ### C8: mmap accounting (src/mfile.c)

mfile.c lines 16-88.  `MAX_MMAP_SIZE = 1 << 12` (4096, in MiB);
`curr_mmap_size` is the process-wide counter.  `mb = sb.st_size >> 20` is
the file size in floored MiB. -/

def MAX_MMAP_SIZE : Nat := 4096

/-- mfile.c 37-45: `while (curr_mmap_size + mb > MAX_MMAP_SIZE && mb > 100)
sleep(5);` then `curr_mmap_size += mb`.  Single-threaded view: a caller
that enters the wait loop stays there until another thread shrinks the
counter, modelled as `none`; `some` is the counter after the increment. -/
def open_mfile_acct (curr size : Nat) : Option Nat :=
  if MAX_MMAP_SIZE < curr + size / 2 ^ 20 ∧ 100 < size / 2 ^ 20 then none
  else some (curr + size / 2 ^ 20)

/-- mfile.c 52-61: when `mmap` fails the increment is undone
(`curr_mmap_size -= mb`). -/
def open_mfile_mmap_failed (curr size : Nat) : Nat := curr - size / 2 ^ 20

/-- mfile.c 84-86, `close_mfile`: `curr_mmap_size -= f->size >> 20`. -/
def close_mfile_acct (curr size : Nat) : Nat := curr - size / 2 ^ 20

/-! ### C3: `process_get_command` out-of-memory handling

beansdb.c lines 868-982.  A `GItem` is an item as the get path sees it:
the key bytes and the suffix+data bytes (` <flag> <len>\r\n<data>\r\n`,
sent as one fragment).  `item_get` is the external store, a function from
key to `Option GItem`.  Fallible allocations - the `try_realloc` growing
`c->ilist` (lines 900-911) and each of the three `add_iov` calls (922-924,
whose own failure points are `add_msghdr`'s and `ensure_iov_space`'s
reallocs) - consume one oracle entry each.

The control-flow detail claim C3 turns on: the `do { ... } while
(key_token->value != NULL)` loop (880-954) can only exit with
`key_token->value == NULL`.  A `break` on an OOM mid-key leaves
`key_token` at the *current* key token; the block at 949-952 then
re-tokenizes from that key's value - which is a NUL-terminated single
token, the earlier tokenization having replaced its separator - so the
loop retries that same key, and the keys after it are dropped (modelled by
recursing on `[k]`).  Consequently the `key_token->value != NULL` disjunct
of line 967 is always false, and `SERVER_ERROR out of memory writing get
response` can only arise from the final `add_iov(c, "END\r\n", 5)`
failing. -/

structure GItem where
  key : List Char
  payload : List Char
deriving DecidableEq

/-- The connection state the get loop mutates: the iovec fragments built so
far (`iov`, by content), the items retained in `c->ilist` (so
`i = ilist.length`), `c->isize`, and the allocation oracle. -/
structure GetState where
  iov : List (List Char)
  ilist : List GItem
  i : Nat
  isize : Nat
  oracle : List Bool
deriving DecidableEq

def valueLit : List Char := "VALUE ".data

def endLit : List Char := "END\r\n".data

/-- beansdb.c 880-954: the key loop.  Per hit: grow `ilist` when full
(`i >= isize`; on failure free the item and break), then the three
`add_iov` appends (`"VALUE "`, the key, suffix+data; on failure free the
item and break); a break re-tokenizes from the current key and retries it,
dropping the rest (`[k]`).  On full success the item is retained and `i`
incremented; on a miss the loop moves on. -/
def get_loop (store : List Char → Option GItem) :
    List (List Char) → GetState → GetState
  | [], st => st
  | k :: rest, st =>
    match store k with
    | none => get_loop store rest st
    | some it =>
      match hg0 : (if st.isize ≤ st.i then takeOracle st.oracle
          else (true, st.oracle)) with
      | (false, o0) =>
        get_loop store [k] { st with oracle := o0 }
      | (true, o0) =>
        match hg1 : takeOracle o0 with
        | (false, o1) =>
          get_loop store [k] { st with
            isize := if st.isize ≤ st.i then st.isize * 2 else st.isize,
            oracle := o1 }
        | (true, o1) =>
          match hg2 : takeOracle o1 with
          | (false, o2) =>
            get_loop store [k] { st with
              isize := if st.isize ≤ st.i then st.isize * 2 else st.isize,
              iov := st.iov ++ [valueLit], oracle := o2 }
          | (true, o2) =>
            match hg3 : takeOracle o2 with
            | (false, o3) =>
              get_loop store [k] { st with
                isize := if st.isize ≤ st.i then st.isize * 2 else st.isize,
                iov := st.iov ++ [valueLit, it.key], oracle := o3 }
            | (true, o3) =>
              get_loop store rest { st with
                isize := if st.isize ≤ st.i then st.isize * 2 else st.isize,
                iov := st.iov ++ [valueLit, it.key, it.payload],
                ilist := st.ilist ++ [it], i := st.i + 1, oracle := o3 }
termination_by keys st => (st.oracle.length, keys.length)
decreasing_by
  all_goals
    have htl : ∀ (l o : List Bool) (b : Bool), takeOracle l = (b, o) →
        o.length ≤ l.length := by
      intro l o b h
      cases l with
      | nil =>
        simp only [takeOracle, Prod.mk.injEq] at h
        simp [h.2.symm]
      | cons x r =>
        simp only [takeOracle, Prod.mk.injEq] at h
        simp [h.2.symm]
  all_goals
    have htf : ∀ (l o : List Bool), takeOracle l = (false, o) →
        o.length < l.length := by
      intro l o h
      cases l with
      | nil => simp [takeOracle] at h
      | cons x r =>
        simp only [takeOracle, Prod.mk.injEq] at h
        simp [h.2.symm]
  all_goals
    have hif : ∀ (o0 : List Bool) (b : Bool),
        (if st.isize ≤ st.i then takeOracle st.oracle
          else (true, st.oracle)) = (b, o0) → o0.length ≤ st.oracle.length := by
      intro o0 b h
      split at h
      · exact htl _ _ _ h
      · simp only [Prod.mk.injEq] at h
        simp [h.2.symm]
  · exact Prod.Lex.right _ (by simp)
  · have h1 : o0.length < st.oracle.length := by
      revert hg0
      split
      · intro h; exact htf _ _ h
      · intro h
        simp only [Prod.mk.injEq] at h
        exact absurd h.1.symm (by simp)
    exact Prod.Lex.left _ _ (by simpa using h1)
  · have h0 := hif o0 true hg0
    have h1 := htf o0 o1 hg1
    exact Prod.Lex.left _ _ (by omega)
  · have h0 := hif o0 true hg0
    have h1 := htl o0 o1 true hg1
    have h2 := htf o1 o2 hg2
    exact Prod.Lex.left _ _ (by omega)
  · have h0 := hif o0 true hg0
    have h1 := htl o0 o1 true hg1
    have h2 := htl o1 o2 true hg2
    have h3 := htf o2 o3 hg3
    exact Prod.Lex.left _ _ (by omega)
  · have h0 := hif o0 true hg0
    have h1 := htl o0 o1 true hg1
    have h2 := htl o1 o2 true hg2
    have h3 := htl o2 o3 true hg3
    have hlex : ∀ a b e d : Nat, a ≤ b → e < d →
        Prod.Lex (· < ·) (· < ·) (a, e) (b, d) := by
      intro a b e d hab hed
      rcases Nat.lt_or_ge a b with h | h
      · exact Prod.Lex.left _ _ h
      · have hab2 : a = b := Nat.le_antisymm hab h
        subst hab2
        exact Prod.Lex.right _ hed
    exact hlex _ _ _ _ (by omega) (Nat.lt_succ_self rest.length)

inductive GetResult where
  | mwrite : List (List Char) → List GItem → Nat → GetResult
  | serverError : List Char → List (List Char) → List GItem → GetResult
deriving DecidableEq

/-- beansdb.c 956-982: after the loop, `c->icurr = c->ilist; c->ileft = i`.
The do/while only exits with `key_token->value == NULL`, so the guard at
line 967 reduces to the `add_iov(c, "END\r\n", 5)` result: on its failure
the reply is `SERVER_ERROR out of memory writing get response` (via
`out_string`); otherwise `conn_mwrite` with `c->msgcurr = 0`. -/
def process_get_command (store : List Char → Option GItem)
    (keys : List (List Char)) (st : GetState) : GetResult :=
  match takeOracle (get_loop store keys st).oracle with
  | (true, _) =>
    GetResult.mwrite ((get_loop store keys st).iov ++ [endLit])
      (get_loop store keys st).ilist 0
  | (false, _) =>
    GetResult.serverError "SERVER_ERROR out of memory writing get response".data
      (get_loop store keys st).iov (get_loop store keys st).ilist

/-- A two-key store for the C3 counterexample run: `a` and `b` hold
one-byte values (suffix+data ` 0 1\r\n1\r\n` and ` 0 1\r\n2\r\n`). -/
def demoStore : List Char → Option GItem :=
  fun k =>
    if k = ['a'] then some ⟨['a'], " 0 1\r\n1\r\n".data⟩
    else if k = ['b'] then some ⟨['b'], " 0 1\r\n2\r\n".data⟩
    else none

/-! ### Theorems -/

theorem msgInv_add_msghdr {c : ConnIov} (h : msgInv c) : msgInv (add_msghdr c) := by
  obtain ⟨hne, hsum, hmb, hbound, hlast⟩ := h
  obtain ⟨m, rest, hm⟩ := List.exists_cons_of_ne_nil hne
  refine ⟨by simp [add_msghdr], by simp [add_msghdr, hsum], rfl, ?_, ?_⟩
  · intro x hx
    simp only [add_msghdr, List.mem_cons] at hx
    rcases hx with hx | hx
    · subst hx; exact Nat.zero_le _
    · exact hbound x hx
  · show (((⟨0, 0⟩ : MsgHdr) :: c.msgrev).getLastD ⟨0, 0⟩).msg_bytes ≤ MAX_PAYLOAD_SIZE
    rw [hm] at hlast ⊢
    rw [List.getLastD_cons]
    exact hlast

theorem appendFrag_eq {c : ConnIov} {m : MsgHdr} {rest : List MsgHdr}
    (hm : c.msgrev = m :: rest) (len : Nat) :
    appendFrag c len = ⟨⟨m.msg_iovlen + 1, m.msg_bytes + len⟩ :: rest,
      c.iovused + 1, c.msgbytes + len⟩ := by
  unfold appendFrag
  rw [hm]

theorem msgInv_appendFrag {c : ConnIov} (len : Nat) (h : msgInv c)
    (hiov : (c.msgrev.headD ⟨0, 0⟩).msg_iovlen < IOV_MAX)
    (hfst : c.msgrev.length = 1 → c.msgbytes + len ≤ MAX_PAYLOAD_SIZE) :
    msgInv (appendFrag c len) := by
  obtain ⟨hne, hsum, hmb, hbound, hlast⟩ := h
  obtain ⟨m, rest, hm⟩ := List.exists_cons_of_ne_nil hne
  rw [appendFrag_eq hm len]
  rw [hm] at hiov hfst hmb hlast hsum
  simp only [List.headD_cons] at hiov hmb
  unfold msgInv
  dsimp only
  refine ⟨by simp, ?_, ?_, ?_, ?_⟩
  · simp only [List.map_cons, List.sum_cons] at hsum ⊢
    omega
  · simp only [List.headD_cons]
    omega
  · intro x hx
    simp only [List.mem_cons] at hx
    rcases hx with hx | hx
    · subst hx
      show m.msg_iovlen + 1 ≤ IOV_MAX
      omega
    · exact hbound x (by rw [hm]; exact List.mem_cons_of_mem m hx)
  · cases rest with
    | nil =>
      simp only [List.getLastD_cons, List.getLastD_nil]
      have h1 := hfst (by simp)
      omega
    | cons r rs =>
      rw [List.getLastD_cons] at hlast ⊢
      rw [List.getLastD_eq_getLast?] at hlast ⊢
      rw [List.getLast?_eq_getLast (r :: rs) (by simp)] at hlast ⊢
      rw [Option.getD_some] at hlast ⊢
      exact hlast

theorem add_iov_leftover_lt {c : ConnIov} {len : Nat}
    (hlt : 0 < add_iov_leftover c len) : add_iov_leftover c len < len := by
  unfold add_iov_leftover add_iov_start at hlt ⊢
  by_cases hQ : (c.msgrev.headD ⟨0, 0⟩).msg_iovlen = IOV_MAX ∨
      (c.msgrev.length = 1 ∧ MAX_PAYLOAD_SIZE ≤ c.msgbytes)
  · rw [if_pos hQ] at hlt ⊢
    by_cases hP : c.msgrev.length = 1 ∧ MAX_PAYLOAD_SIZE < len + (add_msghdr c).msgbytes
    · rw [if_pos hP] at hlt ⊢
      have h0 : (add_msghdr c).msgbytes = 0 := rfl
      have hM : MAX_PAYLOAD_SIZE = 1400 := rfl
      omega
    · rw [if_neg hP] at hlt
      omega
  · rw [if_neg hQ] at hlt ⊢
    by_cases hP : c.msgrev.length = 1 ∧ MAX_PAYLOAD_SIZE < len + c.msgbytes
    · rw [if_pos hP] at hlt ⊢
      push_neg at hQ
      have hmb := hQ.2 hP.1
      omega
    · rw [if_neg hP] at hlt
      omega

theorem add_iov_start_head_lt {c : ConnIov} (h : msgInv c) :
    ((add_iov_start c).msgrev.headD ⟨0, 0⟩).msg_iovlen < IOV_MAX := by
  unfold add_iov_start
  split
  · show (((⟨0, 0⟩ : MsgHdr) :: c.msgrev).headD ⟨0, 0⟩).msg_iovlen < IOV_MAX
    rw [List.headD_cons]
    decide
  · rename_i hQ
    push_neg at hQ
    obtain ⟨hQ1, hQ2⟩ := hQ
    obtain ⟨m, rest, hm⟩ := List.exists_cons_of_ne_nil h.1
    have hb := h.2.2.2.1 m (by rw [hm]; exact List.mem_cons_self m rest)
    rw [hm] at hQ1 ⊢
    simp only [List.headD_cons] at hQ1 ⊢
    omega

theorem add_iov_start_inv {c : ConnIov} (h : msgInv c) : msgInv (add_iov_start c) := by
  unfold add_iov_start
  split
  · exact msgInv_add_msghdr h
  · exact h

theorem add_iov_start_first {c : ConnIov} {len : Nat} (h : msgInv c)
    (hone : (add_iov_start c).msgrev.length = 1) :
    (add_iov_start c).msgbytes + (len - add_iov_leftover c len) ≤ MAX_PAYLOAD_SIZE := by
  obtain ⟨m, rest, hm⟩ := List.exists_cons_of_ne_nil h.1
  unfold add_iov_leftover
  unfold add_iov_start at hone ⊢
  by_cases hQ : (c.msgrev.headD ⟨0, 0⟩).msg_iovlen = IOV_MAX ∨
      (c.msgrev.length = 1 ∧ MAX_PAYLOAD_SIZE ≤ c.msgbytes)
  · rw [if_pos hQ] at hone
    exfalso
    have h2 : (add_msghdr c).msgrev.length = c.msgrev.length + 1 := by
      simp [add_msghdr]
    have h3 : c.msgrev.length = rest.length + 1 := by rw [hm]; simp
    omega
  · rw [if_neg hQ] at hone ⊢
    push_neg at hQ
    obtain ⟨hQ1, hQ2⟩ := hQ
    have hmblt := hQ2 hone
    by_cases hP : c.msgrev.length = 1 ∧ MAX_PAYLOAD_SIZE < len + c.msgbytes
    · rw [if_pos hP]
      obtain ⟨hP1, hP2⟩ := hP
      omega
    · rw [if_neg hP]
      rw [not_and_or] at hP
      rcases hP with hP | hP
      · exact absurd hone hP
      · push_neg at hP
        omega

theorem msgInv_add_iov (len : Nat) : ∀ c : ConnIov, msgInv c → msgInv (add_iov c len) := by
  induction len using Nat.strong_induction_on with
  | _ len ih =>
    intro c h
    rw [add_iov]
    have hstep : msgInv (appendFrag (add_iov_start c) (len - add_iov_leftover c len)) :=
      msgInv_appendFrag _ (add_iov_start_inv h) (add_iov_start_head_lt h)
        (fun hone => add_iov_start_first h hone)
    split
    · rename_i hlt
      exact ih _ (add_iov_leftover_lt hlt) _ hstep
    · exact hstep

theorem msgInv_response_start : msgInv response_start := by decide

theorem msgInv_foldl (lens : List Nat) :
    ∀ c : ConnIov, msgInv c → msgInv (lens.foldl add_iov c) := by
  induction lens with
  | nil => intro c h; exact h
  | cons l ls ih =>
    intro c h
    exact ih _ (msgInv_add_iov l c h)

theorem memchr_eq_none {b : Nat} : ∀ {l : List Nat},
    memchr b l = none ↔ ∀ x ∈ l, x ≠ b := by
  intro l
  induction l with
  | nil => simp [memchr]
  | cons x xs ih =>
    by_cases hx : x = b
    · subst hx
      simp [memchr]
    · simp only [memchr, if_neg hx, Option.map_eq_none']
      rw [ih, List.forall_mem_cons]
      simp [hx]

theorem memchr_eq_some {b : Nat} : ∀ {l : List Nat} {k : Nat}, memchr b l = some k →
    k < l.length ∧ l.getD k 0 = b ∧ ∀ i < k, l.getD i 0 ≠ b := by
  intro l
  induction l with
  | nil => intro k h; simp [memchr] at h
  | cons x xs ih =>
    intro k h
    simp only [memchr] at h
    by_cases hx : x = b
    · rw [if_pos hx] at h
      obtain rfl : (0 : Nat) = k := Option.some.inj h
      exact ⟨by simp, by simpa using hx, by omega⟩
    · rw [if_neg hx] at h
      obtain ⟨k0, hk0, hk⟩ : ∃ k0, memchr b xs = some k0 ∧ k0 + 1 = k := by
        cases hmc : memchr b xs with
        | none => rw [hmc] at h; simp at h
        | some k0 => rw [hmc] at h; simp at h; exact ⟨k0, rfl, h⟩
      subst hk
      obtain ⟨h1, h2, h3⟩ := ih hk0
      refine ⟨by simpa using h1, by simpa using h2, ?_⟩
      intro i hi
      cases i with
      | zero => simpa using hx
      | succ j => simpa using h3 j (by omega)

theorem rwindow_length {c : RConn} (h : rInv c) : (rwindow c).length = c.rbytes := by
  obtain ⟨h1, h2⟩ := h
  simp only [rwindow, List.length_take, List.length_drop, h1]
  omega

theorem try_read_command_some {c : RConn} {cmd : List Nat} {c2 : RConn}
    (heq : try_read_command c = some (cmd, c2)) :
    ∃ k, memchr newline (rwindow c) = some k ∧
      cmd = (if 1 < k ∧ (rwindow c).getD (k - 1) 0 = carriage then
        ((rwindow c).take k).dropLast else (rwindow c).take k) ∧
      c2 = { c with rcurr := c.rcurr + k + 1, rbytes := c.rbytes - (k + 1) } := by
  unfold try_read_command at heq
  cases hmc : memchr newline (rwindow c) with
  | none => rw [hmc] at heq; simp at heq
  | some k =>
    rw [hmc] at heq
    simp only [Option.some.injEq, Prod.mk.injEq] at heq
    exact ⟨k, rfl, heq.1.symm, heq.2.symm⟩

theorem grow_step_inv (c : RConn) (ga : List Bool)
    (hlen : c.rbuf.length = c.rsize) (hb : c.rbytes ≤ c.rsize) (hc : c.rcurr = 0) :
    (∀ r, grow_step c ga = Sum.inl r → rInv r.conn ∧ r.conn.rcurr = 0) ∧
    (∀ c2 ga2, grow_step c ga = Sum.inr (c2, ga2) →
      c2.rbuf.length = c2.rsize ∧ c2.rbytes ≤ c2.rsize ∧ c2.rcurr = 0) := by
  unfold grow_step
  split
  · split
    · constructor
      · intro r hr
        simp at hr
      · intro c2 ga2 hp
        simp only [Sum.inr.injEq, Prod.mk.injEq] at hp
        obtain ⟨hp1, hp2⟩ := hp
        subst hp1
        refine ⟨?_, ?_, hc⟩
        · simp only [rgrow, List.length_append, List.length_replicate, hlen]
          omega
        · simp only [rgrow]
          omega
    · constructor
      · intro r hr
        simp only [Sum.inl.injEq] at hr
        subst hr
        refine ⟨⟨hlen, ?_⟩, hc⟩
        dsimp only
        omega
      · intro c2 ga2 hp
        simp at hp
  · constructor
    · intro r hr
      simp at hr
    · intro c2 ga2 hp
      simp only [Sum.inr.injEq, Prod.mk.injEq] at hp
      obtain ⟨hp1, hp2⟩ := hp
      subst hp1
      exact ⟨hlen, hb, hc⟩

theorem recv_step_inv (ev : ReadEv) (cg : RConn) (g : Bool) (ga1 : List Bool)
    (hlen : cg.rbuf.length = cg.rsize) (hb : cg.rbytes ≤ cg.rsize) (hc : cg.rcurr = 0) :
    (∀ r, recv_step ev cg g ga1 = Sum.inl r → rInv r.conn ∧ r.conn.rcurr = 0) ∧
    (∀ c2 ga2, recv_step ev cg g ga1 = Sum.inr (c2, ga2) →
      c2.rbuf.length = c2.rsize ∧ c2.rbytes ≤ c2.rsize ∧ c2.rcurr = 0) := by
  cases ev with
  | bytes n =>
    simp only [recv_step]
    constructor
    · intro r hr
      split at hr
      · simp only [Sum.inl.injEq] at hr
        subst hr
        refine ⟨⟨hlen, ?_⟩, hc⟩
        show cg.rcurr + cg.rbytes ≤ cg.rsize
        omega
      · split at hr
        · simp at hr
        · simp only [Sum.inl.injEq] at hr
          subst hr
          refine ⟨⟨hlen, ?_⟩, hc⟩
          dsimp only
          omega
    · intro c2 ga2 hp
      split at hp
      · simp at hp
      · split at hp
        · simp only [Sum.inr.injEq, Prod.mk.injEq] at hp
          obtain ⟨hp1, hp2⟩ := hp
          subst hp1
          refine ⟨hlen, ?_, hc⟩
          dsimp only
          omega
        · simp at hp
  | again =>
    simp only [recv_step]
    constructor
    · intro r hr
      simp only [Sum.inl.injEq] at hr
      subst hr
      refine ⟨⟨hlen, ?_⟩, hc⟩
      show cg.rcurr + cg.rbytes ≤ cg.rsize
      omega
    · intro c2 ga2 hp
      simp at hp
  | err =>
    simp only [recv_step]
    constructor
    · intro r hr
      simp only [Sum.inl.injEq] at hr
      subst hr
      refine ⟨⟨hlen, ?_⟩, hc⟩
      show cg.rcurr + cg.rbytes ≤ cg.rsize
      omega
    · intro c2 ga2 hp
      simp at hp

theorem read_loop_inv : ∀ (evs : List ReadEv) (c : RConn) (g : Bool) (ga : List Bool),
    c.rbuf.length = c.rsize → c.rbytes ≤ c.rsize → c.rcurr = 0 →
    rInv (read_loop evs c g ga).conn ∧ (read_loop evs c g ga).conn.rcurr = 0 := by
  intro evs
  induction evs with
  | nil =>
    intro c g ga hlen hb hc
    simp only [read_loop]
    obtain ⟨hg1, hg2⟩ := grow_step_inv c ga hlen hb hc
    cases hg : grow_step c ga with
    | inl r =>
      simp only [hg]
      exact hg1 r hg
    | inr p =>
      obtain ⟨cg, ga1⟩ := p
      simp only [hg]
      obtain ⟨f1, f2, f3⟩ := hg2 cg ga1 hg
      refine ⟨⟨f1, ?_⟩, f3⟩
      show cg.rcurr + cg.rbytes ≤ cg.rsize
      omega
  | cons ev rest ih =>
    intro c g ga hlen hb hc
    simp only [read_loop]
    obtain ⟨hg1, hg2⟩ := grow_step_inv c ga hlen hb hc
    cases hg : grow_step c ga with
    | inl r =>
      simp only [hg]
      exact hg1 r hg
    | inr p =>
      obtain ⟨cg, ga1⟩ := p
      simp only [hg]
      obtain ⟨f1, f2, f3⟩ := hg2 cg ga1 hg
      obtain ⟨hr1, hr2⟩ := recv_step_inv ev cg g ga1 f1 f2 f3
      cases hrc : recv_step ev cg g ga1 with
      | inl r =>
        simp only [hrc]
        exact hr1 r hrc
      | inr q =>
        obtain ⟨c2, ga2⟩ := q
        simp only [hrc]
        obtain ⟨g1, g2, g3⟩ := hr2 c2 ga2 hrc
        exact ih c2 true ga2 g1 g2 g3

/-- C2: the read-buffer cursor invariant (`rcurr ≥ rbuf` is inherent to the
offset representation; `rcurr + rbytes ≤ rbuf + rsize` is `rInv`) is
preserved by the two cursor-moving operations: `try_read_command` advances
`rcurr` past exactly the consumed line (the cursor moves forward by the
same amount `rbytes` shrinks), and `try_read_network` compacts the residual
bytes to the head of `rbuf` (its resulting cursor is offset 0) before
reading, for every sequence of read results and allocation outcomes. -/
theorem claim_C2_cursor_invariant (c : RConn) (h : rInv c) :
    (∀ cmd c2, try_read_command c = some (cmd, c2) →
      rInv c2 ∧ c.rcurr < c2.rcurr ∧ c2.rcurr + c2.rbytes = c.rcurr + c.rbytes) ∧
    (∀ evs ga, rInv (try_read_network c evs ga).conn ∧
      (try_read_network c evs ga).conn.rcurr = 0) := by
  constructor
  · intro cmd c2 heq
    obtain ⟨k, hmc, hcmd, hc2⟩ := try_read_command_some heq
    have hk := (memchr_eq_some hmc).1
    rw [rwindow_length h] at hk
    obtain ⟨h1, h2⟩ := h
    subst hc2
    refine ⟨⟨h1, by dsimp only; omega⟩, by dsimp only; omega, by dsimp only; omega⟩
  · intro evs ga
    unfold try_read_network
    obtain ⟨h1, h2⟩ := h
    split
    · apply read_loop_inv
      · dsimp only
        rw [List.length_append, List.length_drop, rwindow_length ⟨h1, h2⟩]
        omega
      · dsimp only
        omega
      · rfl
    · rename_i hcur
      push_neg at hcur
      exact read_loop_inv evs c false ga h1 (by omega) hcur

/-- C2 witness: a concrete connection with one unread byte at offset 1 and
a 2-byte read filling the buffer. -/
theorem claim_C2_cursor_invariant_witness :
    rInv (try_read_network ⟨[104, 10, 0, 0], 1, 1, 4⟩ [ReadEv.bytes 2] []).conn ∧
    (try_read_network ⟨[104, 10, 0, 0], 1, 1, 4⟩ [ReadEv.bytes 2] []).conn.rcurr = 0 :=
  (claim_C2_cursor_invariant ⟨[104, 10, 0, 0], 1, 1, 4⟩ (by decide)).2 [ReadEv.bytes 2] []

/-- C7 counterexample: on a read buffer holding exactly the two bytes
`\r\n`, the source strips nothing (the guard is `(el - c->rcurr) > 1`, and
here `el - rcurr == 1`), so the parser receives the one-byte command `\r`;
the claim's unconditional "a preceding `\r` is stripped"
(`try_read_command_spec`) would hand it the empty command instead. -/
theorem claim_C7_counterexample :
    try_read_command ⟨[13, 10], 0, 2, 2⟩ = some ([13], ⟨[13, 10], 2, 0, 2⟩) ∧
    try_read_command_spec ⟨[13, 10], 0, 2, 2⟩ = some ([], ⟨[13, 10], 2, 0, 2⟩) ∧
    try_read_command ⟨[13, 10], 0, 2, 2⟩ ≠ try_read_command_spec ⟨[13, 10], 0, 2, 2⟩ := by
  refine ⟨by decide, by decide, by decide⟩

/-- C7 (amended): `try_read_command` returns 0 (`none`) exactly when the
read buffer holds no `\n` byte; when a `\n` is present, the cursor advances
to the byte after the *first* `\n`, the bytes before plus the line are
conserved, and the command passed to the parser is the bytes up to that
`\n` with a preceding `\r` stripped *only when the line has at least two
bytes before the `\n`* (the source guard is `(el - c->rcurr) > 1`, so a
lone `\r` line is passed through as the command `\r`). -/
theorem claim_C7_line_framing (c : RConn) (h : rInv c) :
    (try_read_command c = none ↔ ∀ x ∈ rwindow c, x ≠ newline) ∧
    (∀ cmd c2, try_read_command c = some (cmd, c2) →
      c2.rbuf = c.rbuf ∧ c2.rsize = c.rsize ∧
      c.rcurr < c2.rcurr ∧ c2.rcurr ≤ c.rcurr + c.rbytes ∧
      c2.rcurr + c2.rbytes = c.rcurr + c.rbytes ∧
      (rwindow c).getD (c2.rcurr - c.rcurr - 1) 0 = newline ∧
      (∀ i < c2.rcurr - c.rcurr - 1, (rwindow c).getD i 0 ≠ newline) ∧
      cmd = (if 1 < c2.rcurr - c.rcurr - 1 ∧
          (rwindow c).getD (c2.rcurr - c.rcurr - 2) 0 = carriage then
        ((rwindow c).take (c2.rcurr - c.rcurr - 1)).dropLast
      else (rwindow c).take (c2.rcurr - c.rcurr - 1))) := by
  constructor
  · unfold try_read_command
    cases hmc : memchr newline (rwindow c) with
    | none =>
      exact iff_of_true rfl (memchr_eq_none.mp hmc)
    | some k =>
      constructor
      · intro habs
        exact absurd habs (by simp)
      · intro hall
        obtain ⟨hk1, hk2, hk3⟩ := memchr_eq_some hmc
        have hmem : (rwindow c).getD k 0 ∈ rwindow c := by
          rw [List.getD_eq_getElem (rwindow c) 0 hk1]
          exact List.getElem_mem hk1
        exact absurd hk2 (hall _ hmem)
  · intro cmd c2 heq
    obtain ⟨k, hmc, hcmd, hc2⟩ := try_read_command_some heq
    obtain ⟨hk1, hk2, hk3⟩ := memchr_eq_some hmc
    have hkb : k < c.rbytes := by
      rw [rwindow_length h] at hk1
      exact hk1
    subst hc2
    dsimp only
    rw [show c.rcurr + k + 1 - c.rcurr - 1 = k by omega]
    rw [show c.rcurr + k + 1 - c.rcurr - 2 = k - 1 by omega]
    exact ⟨rfl, rfl, by omega, by omega, by omega, hk2, hk3, hcmd⟩

/-- C7 witness: applying the framing theorem at a concrete connection whose
buffer holds no newline. -/
theorem claim_C7_line_framing_witness :
    try_read_command ⟨[104, 105, 0, 0], 0, 2, 4⟩ = none ↔
      ∀ x ∈ rwindow ⟨[104, 105, 0, 0], 0, 2, 4⟩, x ≠ newline :=
  (claim_C7_line_framing ⟨[104, 105, 0, 0], 0, 2, 4⟩ (by decide)).1

/-- C1: for every sequence of `add_iov` calls building a response (starting
from the reset `process_command` performs, `response_start`), the
connection's iov/msg bookkeeping invariant holds: `iovused` equals the sum
of the message headers' `msg_iovlen`, no header's `msg_iovlen` exceeds
`IOV_MAX`, and the first outbound message's byte count never exceeds
`MAX_PAYLOAD_SIZE` (1400) - fragments that would push it past the cap are
split by the leftover logic, and a new header is started exactly under the
conditions modelled in `add_iov_start`. -/
theorem claim_C1_add_iov_bookkeeping (lens : List Nat) :
    msgInv (lens.foldl add_iov response_start) :=
  msgInv_foldl lens response_start msgInv_response_start

/-- C1 witness: a 2000-byte fragment (split across two message headers)
followed by a 100-byte one. -/
theorem claim_C1_add_iov_bookkeeping_witness :
    msgInv (List.foldl add_iov response_start [2000, 100]) :=
  claim_C1_add_iov_bookkeeping [2000, 100]

theorem endsCrlf_append (s : List Char) : endsCrlf (s ++ crlf) := by
  unfold endsCrlf crlf
  rw [List.reverse_append]
  rfl

/-- C6: with the noreply flag set, `out_string` appends zero bytes to
`wbuf` and zero fragments to `iov` (every field other than the flag and
the state is untouched), clears the flag, and moves the connection
straight back to `conn_read` - so the server sends no bytes for the
command before the next command is parsed. -/
theorem claim_C6_noreply_no_bytes (c : WConn) (s : List Char)
    (h : c.noreply = true) :
    out_string c s = { c with noreply := false, state := ConnState.read } := by
  unfold out_string
  rw [if_pos h]

/-- C6 witness: a concrete noreply connection handed the reply STORED. -/
theorem claim_C6_noreply_no_bytes_witness :
    out_string ⟨true, ConnState.read, [], 0, 2048, 3, ConnState.read⟩ "STORED".data =
      ⟨false, ConnState.read, [], 0, 2048, 3, ConnState.read⟩ :=
  claim_C6_noreply_no_bytes ⟨true, ConnState.read, [], 0, 2048, 3, ConnState.read⟩
    "STORED".data rfl

/-- C10: `out_string` never overflows the write buffer: with `wsize` as
`conn_new` sets it (`DATA_BUFFER_SIZE`), a reply whose length plus 2
exceeds `wsize` is replaced by the fixed line `SERVER_ERROR output line
too long`, and after every call `wbytes ≤ wsize` with the buffered bytes
ending in CRLF (the noreply early-return leaves the buffer as it was, so
the property is stated as preservation of `wInv`). -/
theorem claim_C10_out_string_no_overflow (c : WConn) (s : List Char)
    (hw : c.wsize = DATA_BUFFER_SIZE) (h : wInv c) :
    wInv (out_string c s) ∧
    (c.noreply = false → c.wsize < s.length + 2 →
      (out_string c s).wbuf = SERVER_ERROR_TOO_LONG ++ crlf) := by
  unfold out_string
  by_cases hn : c.noreply
  · rw [if_pos hn]
    constructor
    · exact h
    · intro hfalse
      rw [hn] at hfalse
      exact absurd hfalse (by simp)
  · rw [if_neg hn]
    dsimp only
    constructor
    · split
      · refine ⟨?_, by simp [crlf], Or.inr (endsCrlf_append _)⟩
        show SERVER_ERROR_TOO_LONG.length + 2 ≤ c.wsize
        rw [hw]
        decide
      · rename_i hfit
        refine ⟨?_, by simp [crlf], Or.inr (endsCrlf_append _)⟩
        show s.length + 2 ≤ c.wsize
        omega
    · intro _ hlong
      rw [if_pos hlong]

/-- C10 witness: a 4000-character reply against the 2048-byte buffer,
starting from a fresh (empty) write buffer. -/
theorem claim_C10_out_string_no_overflow_witness :
    wInv (out_string ⟨false, ConnState.read, [], 0, 2048, 0, ConnState.read⟩
      (List.replicate 4000 'x')) ∧
    ((false : Bool) = false → (2048 : Nat) < (List.replicate 4000 'x').length + 2 →
      (out_string ⟨false, ConnState.read, [], 0, 2048, 0, ConnState.read⟩
        (List.replicate 4000 'x')).wbuf = SERVER_ERROR_TOO_LONG ++ crlf) :=
  claim_C10_out_string_no_overflow
    ⟨false, ConnState.read, [], 0, 2048, 0, ConnState.read⟩
    (List.replicate 4000 'x') rfl (by decide)

/-- C4: when a set/append body read completes, the payload's last two bytes
are required to be CRLF: if they are not, the reply is `CLIENT_ERROR bad
data chunk` and the store is not called (the item is discarded, not
stored); if they are, the store is called once via `store_item` and its
integer return 1/2/3/other maps to STORED/EXISTS/NOT_FOUND/NOT_STORED.
Either way the item is freed exactly once. -/
theorem claim_C4_complete_nread (it : Item) (comm : Comm)
    (retOf : StoreCall → Int)
    (hlen : it.data.length = it.nbytes) (h2 : 2 ≤ it.nbytes) :
    (complete_nread it comm retOf).freed = 1 ∧
    (it.data.drop (it.data.length - 2) ≠ [13, 10] →
      (complete_nread it comm retOf).reply = "CLIENT_ERROR bad data chunk".data ∧
      (complete_nread it comm retOf).calls = []) ∧
    (it.data.drop (it.data.length - 2) = [13, 10] →
      (complete_nread it comm retOf).calls = [store_item it comm] ∧
      (retOf (store_item it comm) = 1 →
        (complete_nread it comm retOf).reply = "STORED".data) ∧
      (retOf (store_item it comm) = 2 →
        (complete_nread it comm retOf).reply = "EXISTS".data) ∧
      (retOf (store_item it comm) = 3 →
        (complete_nread it comm retOf).reply = "NOT_FOUND".data) ∧
      (retOf (store_item it comm) ≠ 1 → retOf (store_item it comm) ≠ 2 →
        retOf (store_item it comm) ≠ 3 →
        (complete_nread it comm retOf).reply = "NOT_STORED".data)) := by
  rw [hlen] at *
  unfold complete_nread
  split
  · rename_i hbad
    refine ⟨rfl, fun _ => ⟨rfl, rfl⟩, fun hgood => absurd hgood hbad⟩
  · rename_i hgood
    rw [not_not] at hgood
    refine ⟨rfl, fun hbad => absurd hgood hbad, fun _ => ⟨rfl, ?_, ?_, ?_, ?_⟩⟩
    · intro h1
      dsimp only
      rw [if_pos h1]
    · intro h2r
      dsimp only
      by_cases h1 : retOf (store_item it comm) = 1
      · omega
      · rw [if_neg h1, if_pos h2r]
    · intro h3
      dsimp only
      by_cases h1 : retOf (store_item it comm) = 1
      · omega
      · by_cases h2r : retOf (store_item it comm) = 2
        · omega
        · rw [if_neg h1, if_neg h2r, if_pos h3]
    · intro h1 h2r h3
      dsimp only
      rw [if_neg h1, if_neg h2r, if_neg h3]

/-- C4 witness: a 7-byte `hello\r\n` payload stored with return 1. -/
theorem claim_C4_complete_nread_witness :
    (complete_nread ⟨['k'], 0, 0, 7, [104, 101, 108, 108, 111, 13, 10]⟩
      Comm.set (fun _ => 1)).freed = 1 :=
  (claim_C4_complete_nread ⟨['k'], 0, 0, 7, [104, 101, 108, 108, 111, 13, 10]⟩
    Comm.set (fun _ => 1) rfl (by decide)).1

/-- C5 (code bug): for a `set` of five bytes whose item allocation fails,
the source stores `it->ver`/`it->flag` through the null item pointer
before the `if (it == NULL)` check, so execution never reaches the claimed
recovery - the reply `SERVER_ERROR out of memory storing object` followed
by swallowing exactly `vlen + 2 = 7` bytes (`process_update_claimed`). -/
theorem claim_C5_alloc_failure_null_deref :
    process_update_command 1 0 0 5 false Comm.set = UpdateOutcome.nullDeref ∧
    process_update_claimed 1 0 0 5 false Comm.set =
      UpdateOutcome.serverOom "SERVER_ERROR out of memory storing object".data
        ConnState.swallow 7 ∧
    process_update_command 1 0 0 5 false Comm.set ≠
      process_update_claimed 1 0 0 5 false Comm.set := by
  refine ⟨by decide, by decide, by decide⟩

/-- C9: every incr command - also one later rejected for an oversized key
or an invalid delta - bumps `stats.set_cmds` by exactly one and leaves
`get_cmds`, `get_hits`, `get_misses` and `delete_cmds` unchanged (the
`Stats` record, mirroring `struct stats`, has no separate incr counter). -/
theorem claim_C9_incr_counts_as_set (st : Stats) (keyLen : Nat)
    (deltaOk : Bool) (incrValue : Nat) :
    (process_arithmetic_command st keyLen deltaOk incrValue).1.set_cmds
        = st.set_cmds + 1 ∧
    (process_arithmetic_command st keyLen deltaOk incrValue).1.get_cmds
        = st.get_cmds ∧
    (process_arithmetic_command st keyLen deltaOk incrValue).1.get_hits
        = st.get_hits ∧
    (process_arithmetic_command st keyLen deltaOk incrValue).1.get_misses
        = st.get_misses ∧
    (process_arithmetic_command st keyLen deltaOk incrValue).1.delete_cmds
        = st.delete_cmds := by
  unfold process_arithmetic_command
  split_ifs <;> exact ⟨rfl, rfl, rfl, rfl, rfl⟩

/-- C3 (code bug): evaluating the model at the failing input - `get a b`
where the `add_iov` of key `a`'s key fragment fails with OOM (oracle
`[true, false]`: the `"VALUE "` append succeeds, the key append fails).
The loop frees the item and breaks; the re-tokenize block (beansdb.c
949-952) retries key `a` (now succeeding, the oracle being exhausted); key
`b` is dropped; `END\r\n` is appended and the connection enters
`conn_mwrite` with `msgcurr = 0`.  The transmitted reply holds a dangling
`"VALUE "` fragment and no data for `b`, and the line `SERVER_ERROR out of
memory writing get response` required by the claim (and by the source's
own comment at lines 962-966) is never produced: the `key_token->value !=
NULL` disjunct guarding it is unreachable. -/
theorem claim_C3_get_oom_reply :
    process_get_command demoStore [['a'], ['b']]
      ⟨[], [], 0, ITEM_LIST_INITIAL, [true, false]⟩ =
    GetResult.mwrite
      [valueLit, valueLit, ['a'], " 0 1\r\n1\r\n".data, endLit]
      [⟨['a'], " 0 1\r\n1\r\n".data⟩] 0 := by
  have h1 : get_loop demoStore [['a'], ['b']]
        ⟨[], [], 0, ITEM_LIST_INITIAL, [true, false]⟩
      = get_loop demoStore [['a']] ⟨[valueLit], [], 0, ITEM_LIST_INITIAL, []⟩ := by
    rw [get_loop.eq_2]
    rfl
  have h2 : get_loop demoStore [['a']] ⟨[valueLit], [], 0, ITEM_LIST_INITIAL, []⟩
      = get_loop demoStore []
          ⟨[valueLit, valueLit, ['a'], " 0 1\r\n1\r\n".data],
            [⟨['a'], " 0 1\r\n1\r\n".data⟩], 1, ITEM_LIST_INITIAL, []⟩ := by
    rw [get_loop.eq_2]
    rfl
  have h3 : get_loop demoStore []
        ⟨[valueLit, valueLit, ['a'], " 0 1\r\n1\r\n".data],
          [⟨['a'], " 0 1\r\n1\r\n".data⟩], 1, ITEM_LIST_INITIAL, []⟩
      = ⟨[valueLit, valueLit, ['a'], " 0 1\r\n1\r\n".data],
          [⟨['a'], " 0 1\r\n1\r\n".data⟩], 1, ITEM_LIST_INITIAL, []⟩ := by
    rw [get_loop.eq_1]
  unfold process_get_command
  rw [h1, h2, h3]
  rfl

/-- C8 counterexample: a file of exactly 100 MiB ("at least 100 MiB" in the
claim's words) with the counter already at the cap: since the source's
guard is `mb > 100` (strict, on floored MiB), the open does not wait and
pushes the counter to 4196 > `MAX_MMAP_SIZE`. -/
theorem claim_C8_counterexample :
    open_mfile_acct 4096 (100 * 2 ^ 20) = some 4196 ∧
    MAX_MMAP_SIZE < 4196 := by
  refine ⟨by decide, by decide⟩

/-- C8 (amended): `open_mfile` adds `size >> 20` (floored MiB) to the
counter; it waits (blocks, in the single-threaded view) only when the
addition would exceed `MAX_MMAP_SIZE` *and* the file is strictly larger
than 100 floored MiB - so an open of such a file that completes never
leaves the counter past the cap; `close_mfile` decrements by the same
amount, and a failed `mmap` undoes the increment. -/
theorem claim_C8_mmap_accounting (curr size n : Nat)
    (hopen : open_mfile_acct curr size = some n) :
    n = curr + size / 2 ^ 20 ∧
    (100 < size / 2 ^ 20 → n ≤ MAX_MMAP_SIZE) ∧
    close_mfile_acct n size = curr ∧
    open_mfile_mmap_failed n size = curr := by
  unfold open_mfile_acct at hopen
  split at hopen
  · simp at hopen
  · rename_i hcond
    push_neg at hcond
    simp only [Option.some.injEq] at hopen
    subst hopen
    refine ⟨rfl, ?_, ?_, ?_⟩
    · intro hbig
      by_contra hgt
      push_neg at hgt
      have := hcond hgt
      omega
    · unfold close_mfile_acct
      omega
    · unfold open_mfile_mmap_failed
      omega

/-- C8 witness: opening a 200-MiB file with the counter at zero. -/
theorem claim_C8_mmap_accounting_witness :
    (200 : Nat) = 0 + 200 * 2 ^ 20 / 2 ^ 20 ∧
    (100 < 200 * 2 ^ 20 / 2 ^ 20 → (200 : Nat) ≤ MAX_MMAP_SIZE) ∧
    close_mfile_acct 200 (200 * 2 ^ 20) = 0 ∧
    open_mfile_mmap_failed 200 (200 * 2 ^ 20) = 0 :=
  claim_C8_mmap_accounting 0 (200 * 2 ^ 20) 200 (by decide)

end Beansdb
